import Mathlib

/-!
Verification of the KPL-Premiere tournament progression engine.

Shallow embedding of the JavaScript sources (js/match.js, js/swiss.js,
js/bracket.js, js/sorting.js, js/config.js, js/state.js) into Lean 4.
JavaScript numbers holding scores, win/loss counts and point differentials
are modelled as `Int`; team and player identity is the name string, which
is how the source itself identifies them (lookups by `name ===`).  DOM
side effects (rendered match elements) are modelled as explicit return
values; the per-match closure state of a match element (`done`,
`lastResult`, `oppsRecorded`, the disabling of inputs) is modelled as an
explicit record threaded through the event handlers.
-/

/-! ## Data model (state.js / app.js team and player shapes) -/

/-- Result record returned by applyScore: the pair {sa, sb}. -/
structure GameResult where
  sa : Int
  sb : Int
deriving DecidableEq

/-- A team's weekly Swiss block: `swiss: { w, l, pd, opps: [], h2h: {} }`.
The `h2h` field is reserved and never read or written by the algorithms,
so it is omitted here.  `playR4` models the transient `swiss.playR4`
property: absent (false) by default, set to `true` by the round-3 branch,
removed (`delete`) by the round-4 branch. -/
structure SwissRec where
  w : Int
  l : Int
  pd : Int
  opps : List String
  playR4 : Bool
deriving DecidableEq

/-- A team's weekly bracket block: `bracket: { w, l, pd }`. -/
structure BracketRec where
  w : Int
  l : Int
  pd : Int
deriving DecidableEq

/-- Team object created at league start (app.js). -/
structure Team where
  name : String
  players : List String
  swiss : SwissRec
  bracket : BracketRec
deriving DecidableEq

/-- A player's cumulative season record: `league: { pts, w, l, pd }`. -/
structure LeagueRec where
  pts : Int
  w : Int
  l : Int
  pd : Int
deriving DecidableEq

/-- Player object created at league start (app.js). -/
structure Player where
  name : String
  team : String
  league : LeagueRec
deriving DecidableEq

/-! ## Configuration constants (config.js) -/

def TOTAL_WEEKS : Int := 15

def SWISS_ROUNDS : Int := 4

def BRACKET_ROUND_COUNT : Nat := 3

def BRACKET_BASE_POINTS : List Int := [10, 8, 6, 4]

def FIRST_PLACE_BONUS : Int := 5

def LOSER_POINT_PENALTY : Int := 2

/-! ## Score validation and application (match.js) -/

/-- isValidScore from match.js.  The JavaScript `typeof`/`isNaN` guards
reject non-numeric input; over the `Int` domain (all call sites feed
`parseInt` results, and the NaN case is already rejected by those guards)
the remaining checks are the range check and the first-to-11/win-by-2
rule. -/
def isValidScore (scoreA scoreB : Int) : Bool :=
  if scoreA < 0 || scoreB < 0 || scoreA > 99 || scoreB > 99 then false
  else
    let mx := max scoreA scoreB
    let mn := min scoreA scoreB
    mx ≥ 11 && (mx - mn) ≥ 2

/-- Core of applyScore on a (w, l, pd) stats block pair: undo of the
previous result (when present) followed by application of the new
scores.  Transcribed from match.js lines 45-57. -/
def applyScoreRec (ra rb : BracketRec) (scoreA scoreB : Int)
    (lastResult : Option GameResult) : BracketRec × BracketRec × GameResult :=
  let ra1 : BracketRec :=
    match lastResult with
    | some lr =>
        { w := ra.w - (if lr.sa > lr.sb then 1 else 0)
          l := ra.l - (if lr.sb > lr.sa then 1 else 0)
          pd := ra.pd - (lr.sa - lr.sb) }
    | none => ra
  let rb1 : BracketRec :=
    match lastResult with
    | some lr =>
        { w := rb.w - (if lr.sb > lr.sa then 1 else 0)
          l := rb.l - (if lr.sa > lr.sb then 1 else 0)
          pd := rb.pd - (lr.sb - lr.sa) }
    | none => rb
  let ra2 := { ra1 with pd := ra1.pd + (scoreA - scoreB) }
  let rb2 := { rb1 with pd := rb1.pd + (scoreB - scoreA) }
  if scoreA > scoreB then
    ({ ra2 with w := ra2.w + 1 }, { rb2 with l := rb2.l + 1 }, ⟨scoreA, scoreB⟩)
  else
    ({ ra2 with l := ra2.l + 1 }, { rb2 with w := rb2.w + 1 }, ⟨scoreA, scoreB⟩)

/-- applyScore from match.js: selects the phase block (`a.swiss` or
`a.bracket`) of both teams, undoes `lastResult` if supplied, applies the
new scores, and returns the new result record.  In the source the
`!teamA || !teamB` guard covers a missing stats object, which cannot
occur in this model since every `Team` carries both blocks. -/
def applyScore (a b : Team) (scoreA scoreB : Int) (isSwiss : Bool)
    (lastResult : Option GameResult) : Team × Team × GameResult :=
  if isSwiss then
    let r := applyScoreRec ⟨a.swiss.w, a.swiss.l, a.swiss.pd⟩
      ⟨b.swiss.w, b.swiss.l, b.swiss.pd⟩ scoreA scoreB lastResult
    ({ a with swiss := { a.swiss with w := r.1.w, l := r.1.l, pd := r.1.pd } },
     { b with swiss := { b.swiss with w := r.2.1.w, l := r.2.1.l, pd := r.2.1.pd } },
     r.2.2)
  else
    let r := applyScoreRec a.bracket b.bracket scoreA scoreB lastResult
    ({ a with bracket := r.1 }, { b with bracket := r.2.1 }, r.2.2)

/-! ## Single-game match element state machine (makeMatch, match.js)

A match element's closure state together with the two team objects it
mutates and the global pending counter.  `inputsEnabled` models the
score inputs and the Submit button, which are disabled together after
any successful submission; the admin gear icon is never disabled. -/

structure MatchCtx where
  a : Team
  b : Team
  pending : Int
  done : Bool
  lastResult : Option GameResult
  oppsRecorded : Bool
  inputsEnabled : Bool
deriving DecidableEq

/-- The `.match-submit` click handler (match.js lines 127-157).  A click
can only happen while the button is enabled.  On invalid scores an error
is shown and nothing changes.  On success: decrement pending on the
first completion, apply the scores with undo support, record opponents
once for Swiss matches, and disable the inputs. -/
def submitClick (isSwiss : Bool) (c : MatchCtx) (scoreA scoreB : Int) : MatchCtx :=
  if !c.inputsEnabled then c
  else if !isValidScore scoreA scoreB then c
  else
    let pending1 := if !c.done then c.pending - 1 else c.pending
    let r := applyScore c.a c.b scoreA scoreB isSwiss c.lastResult
    let a1 := r.1
    let b1 := r.2.1
    let a2 :=
      if isSwiss && !c.oppsRecorded then
        { a1 with swiss := { a1.swiss with opps := a1.swiss.opps ++ [b1.name] } }
      else a1
    let b2 :=
      if isSwiss && !c.oppsRecorded then
        { b1 with swiss := { b1.swiss with opps := b1.swiss.opps ++ [a2.name] } }
      else b1
    { a := a2, b := b2, pending := pending1, done := true,
      lastResult := some r.2.2,
      oppsRecorded := if isSwiss && !c.oppsRecorded then true else c.oppsRecorded,
      inputsEnabled := false }

/-- The `.admin` click handler (match.js lines 159-189).  The gear icon
is never disabled, so this event is always possible.  On success it
decrements pending on first completion and applies the scores with undo
support — but, unlike the submit handler, it never records opponents. -/
def adminClick (isSwiss : Bool) (c : MatchCtx) (scoreA scoreB : Int) : MatchCtx :=
  if !isValidScore scoreA scoreB then c
  else
    let pending1 := if !c.done then c.pending - 1 else c.pending
    let r := applyScore c.a c.b scoreA scoreB isSwiss c.lastResult
    { a := r.1, b := r.2.1, pending := pending1, done := true,
      lastResult := some r.2.2,
      oppsRecorded := c.oppsRecorded,
      inputsEnabled := false }

/-- Submission events a match element can receive. -/
inductive MatchEvent where
  | submit (scoreA scoreB : Int)
  | admin (scoreA scoreB : Int)
deriving DecidableEq

def stepMatch (isSwiss : Bool) (c : MatchCtx) : MatchEvent → MatchCtx
  | .submit sa sb => submitClick isSwiss c sa sb
  | .admin sa sb => adminClick isSwiss c sa sb

def runMatch (isSwiss : Bool) (c : MatchCtx) (evs : List MatchEvent) : MatchCtx :=
  evs.foldl (stepMatch isSwiss) c

/-- Fresh match element state for two teams (closure initialisation in
makeMatch: done = false, lastResult = null, oppsRecorded = false). -/
def initMatchCtx (a b : Team) (pending : Int) : MatchCtx :=
  { a := a, b := b, pending := pending, done := false, lastResult := none,
    oppsRecorded := false, inputsEnabled := true }

/-! ## League comparator (sorting.js) -/

/-- Sign model of JavaScript `a.localeCompare(b)`: negative when `a`
orders before `b`, positive when after, zero on equal strings.  String
order is the case-sensitive lexicographic order on the characters. -/
def localeCompareInt (a b : String) : Int :=
  if a < b then -1 else if b < a then 1 else 0

/-- comparePlayersByLeague from sorting.js. -/
def comparePlayersByLeague (a b : Player) : Int :=
  if b.league.pts ≠ a.league.pts then b.league.pts - a.league.pts
  else if b.league.w ≠ a.league.w then b.league.w - a.league.w
  else if b.league.pd ≠ a.league.pd then b.league.pd - a.league.pd
  else localeCompareInt a.name b.name

/-- The ranking order the specification describes for league standings:
points descending, then wins descending, then point differential
descending, then name ascending.  `a` ranks strictly before `b`. -/
def leagueRanksBefore (a b : Player) : Prop :=
  b.league.pts < a.league.pts ∨
    (b.league.pts = a.league.pts ∧
      (b.league.w < a.league.w ∨
        (b.league.w = a.league.w ∧
          (b.league.pd < a.league.pd ∨
            (b.league.pd = a.league.pd ∧ a.name < b.name)))))

instance (a b : Player) : Decidable (leagueRanksBefore a b) := by
  unfold leagueRanksBefore; infer_instance

/-! ## Swiss pairing engine (swissPair, swiss.js lines 31-56)

The source keeps two mutable variables: `used` (a Set of teams) and
`result` (the list of pairs built so far).  The recursive `backtrack`
function and its partner loop are modelled by `btrack` and `tryPartners`
below, which thread `used` (as the list of used team names) and `result`
explicitly and return them together with the success flag — including
the `result.pop(); used.delete(b)` rollback performed after a failed
recursive call, and the `used.delete(a)` rollback before returning
false.  `btrack` recursion is fuelled; the fuel `pool.length + 1` used
by `swissPair` is provably never exhausted because every recursive call
grows `used` by two distinct names drawn from the pool. -/

def pairNames (r : List (Team × Team)) : List String :=
  r.flatMap (fun p => [p.1.name, p.2.name])

/-- The `for (const b of pool)` partner loop inside backtrack.  `btr` is
the recursive call (backtrack at the next depth); `used` on entry
already contains `a`'s name, exactly as in the source. -/
def tryPartners (btr : List String → List (Team × Team) →
      Bool × List String × List (Team × Team))
    (a : Team) :
    List Team → List String → List (Team × Team) →
      Bool × List String × List (Team × Team)
  | [], used, result => (false, used, result)
  | b :: bs, used, result =>
    if b.name ∈ used ∨ b.name ∈ a.swiss.opps then
      tryPartners btr a bs used result
    else
      match btr (b.name :: used) (result ++ [(a, b)]) with
      | (true, u1, r1) => (true, u1, r1)
      | (false, u1, r1) => tryPartners btr a bs (u1.erase b.name) r1.dropLast

/-- The recursive backtrack function of swissPair. -/
def btrack (pool : List Team) :
    Nat → List String → List (Team × Team) →
      Bool × List String × List (Team × Team)
  | 0, used, result => (false, used, result)
  | fuel + 1, used, result =>
    if used.length = pool.length then (true, used, result)
    else
      match pool.find? (fun t => decide (t.name ∉ used)) with
      | none => (false, used, result)
      | some a =>
        match tryPartners (btrack pool fuel) a pool (a.name :: used) result with
        | (true, u1, r1) => (true, u1, r1)
        | (false, u1, r1) => (false, u1.erase a.name, r1)

/-- swissPair from swiss.js: pools of fewer than 2 teams yield no pairs;
otherwise run the backtracking search and return whatever `result`
holds afterwards. -/
def swissPair (pool : List Team) : List (Team × Team) :=
  if pool.length < 2 then []
  else (btrack pool (pool.length + 1) [] []).2.2

/-- A rematch-free perfect matching over a pool, as the specification
describes it: a list of pairs of pool members whose names exhaust the
pool exactly, such that no pair has previously played (per
swiss.opps membership, in either direction). -/
def validMatching (pool : List Team) (M : List (Team × Team)) : Prop :=
  (pool.map Team.name).Perm (pairNames M) ∧
    ∀ p ∈ M, p.1 ∈ pool ∧ p.2 ∈ pool ∧
      p.1.name ∉ p.2.swiss.opps ∧ p.2.name ∉ p.1.swiss.opps

instance (pool : List Team) (M : List (Team × Team)) :
    Decidable (validMatching pool M) := by
  unfold validMatching; infer_instance

/-! ## Season state and Swiss round controller (state.js, swiss.js) -/

/-- The root season state (state.js).  `bracketRounds` stores each
round's pairings; the source stores references to the team objects, for
which the stable identity is the team name (the pairings are re-read by
name-independent reference only within one week, and teams are looked up
by name everywhere else), so pairs are modelled as name pairs resolved
against `teams`. -/
structure State where
  week : Int
  teams : List Team
  players : List Player
  swissRound : Int
  pending : Int
  bracketRounds : List (List (String × String))
deriving DecidableEq

/-- Pool key of a team: the `${w}-${l}` grouping key of nextSwissRound. -/
def poolKey (t : Team) : Int × Int := (t.swiss.w, t.swiss.l)

/-- Distinct pool keys in order of first appearance — the key insertion
order that `Object.values(pools)` iterates for the non-numeric string
keys used by the source. -/
def poolKeys (teams : List Team) : List (Int × Int) :=
  teams.foldl (fun ks t => if poolKey t ∈ ks then ks else ks ++ [poolKey t]) []

/-- The members of one pool, in team-list order (push order). -/
def poolOf (teams : List Team) (k : Int × Int) : List Team :=
  teams.filter (fun t => decide (poolKey t = k))

def namesOfPairs (ps : List (Team × Team)) : List (String × String) :=
  ps.map (fun p => (p.1.name, p.2.name))

/-- nextSwissRound from swiss.js, as a state transformer also returning
the list of created matches (the match elements appended to the round's
DOM container), each given by its team-name pair.  Faithful ordering of
effects: the `pending > 0` guard first; then the round counter is
incremented and pending reset before the empty-teams guard; round 3
marks the whole (1,1) pool `playR4` and pairs the (2,0), (1,1) and
(0,2) pools; round 4 runs only when exactly 4 teams carry the mark and
clears the marks only inside that branch; all other rounds pair every
pool.  Each created match increments pending. -/
def nextSwissRound (s : State) : State × List (String × String) :=
  if s.pending > 0 then (s, [])
  else
    let s1 : State := { s with swissRound := s.swissRound + 1, pending := 0 }
    if s1.teams = [] then (s1, [])
    else if s1.swissRound = 3 then
      let m20 := namesOfPairs (swissPair (poolOf s1.teams (2, 0)))
      let teams2 := s1.teams.map (fun t =>
        if poolKey t = (1, 1) then
          { t with swiss := { t.swiss with playR4 := true } }
        else t)
      let m11 := namesOfPairs (swissPair (poolOf s1.teams (1, 1)))
      let m02 := namesOfPairs (swissPair (poolOf s1.teams (0, 2)))
      let ms := m20 ++ m11 ++ m02
      ({ s1 with teams := teams2, pending := ms.length }, ms)
    else if s1.swissRound = 4 then
      let r4teams := s1.teams.filter (fun t => t.swiss.playR4)
      if r4teams.length = 4 then
        let winners := r4teams.filter (fun t => decide (t.swiss.w = 2 ∧ t.swiss.l = 1))
        let losers := r4teams.filter (fun t => decide (t.swiss.w = 1 ∧ t.swiss.l = 2))
        let mw := if winners.length = 2 then namesOfPairs (swissPair winners) else []
        let ml := if losers.length = 2 then namesOfPairs (swissPair losers) else []
        let ms := mw ++ ml
        let teams2 := s1.teams.map (fun t =>
          if t.swiss.playR4 then
            { t with swiss := { t.swiss with playR4 := false } }
          else t)
        ({ s1 with teams := teams2, pending := ms.length }, ms)
      else (s1, [])
    else
      let ms := (poolKeys s1.teams).flatMap
        (fun k => namesOfPairs (swissPair (poolOf s1.teams k)))
      ({ s1 with pending := ms.length }, ms)

/-! ## Bracket finalization (bracket.js) and week rollover -/

def findTeamByName (teams : List Team) (n : String) : Option Team :=
  teams.find? (fun t => decide (t.name = n))

/-- Mutation of the first player with the given name, as performed by
`State.findPlayerByName` (which returns the first match) followed by
field updates; when no player matches, a warning is logged and nothing
changes. -/
def updateFirstPlayer (n : String) (f : Player → Player) :
    List Player → List Player
  | [] => []
  | p :: ps =>
    if p.name = n then f p :: ps else p :: updateFirstPlayer n f ps

/-- The per-team player award loop of finalizeWeek: each of the team's
players receives `pts` league points and the team's bracket record added
into their cumulative league record. -/
def awardToTeamPlayers (t : Team) (pts : Int) (players : List Player) :
    List Player :=
  t.players.foldl (fun ps pn =>
    updateFirstPlayer pn (fun p =>
      { p with league :=
          { pts := p.league.pts + pts
            w := p.league.w + t.bracket.w
            l := p.league.l + t.bracket.l
            pd := p.league.pd + t.bracket.pd } }) ps) players

/-- Award for one placement-tier pair at index `i` of bracket round 3
(bracket.js lines 112-141): the team with the higher bracket win count
is the winner; winner players are awarded first, then loser players. -/
def awardPair (teams : List Team) (players : List Player) (i : Nat)
    (pr : String × String) : List Player :=
  match findTeamByName teams pr.1, findTeamByName teams pr.2 with
  | some a, some b =>
    let hiTeam := if a.bracket.w > b.bracket.w then a else b
    let loTeam := if a.bracket.w > b.bracket.w then b else a
    let hiPts := BRACKET_BASE_POINTS.getD i 0 +
      (if i = 0 then FIRST_PLACE_BONUS else 0)
    let loPts := BRACKET_BASE_POINTS.getD i 0 - LOSER_POINT_PENALTY
    awardToTeamPlayers loTeam loPts (awardToTeamPlayers hiTeam hiPts players)
  | _, _ => players

/-- finalizeWeek from bracket.js lines 103-153: abort when round 3 data
is missing or empty, otherwise award points for every round-3 pair and
then reset every team's swiss and bracket blocks.  Note that neither
`week`, `swissRound`, `pending` nor `bracketRounds` is touched here. -/
def finalizeWeek (s : State) : State :=
  match s.bracketRounds.get? 2 with
  | none => s
  | some r3 =>
    if r3 = [] then s
    else
      let players1 := r3.enum.foldl
        (fun ps ipr => awardPair s.teams ps ipr.1 ipr.2) s.players
      let teams1 := s.teams.map (fun t =>
        { t with
          swiss := { w := 0, l := 0, pd := 0, opps := [], playR4 := false }
          bracket := { w := 0, l := 0, pd := 0 } })
      { s with players := players1, teams := teams1 }

/-- nextWeek from bracket.js lines 156-168: blocked when the league is
complete (`week >= TOTAL_WEEKS`), otherwise increments the week and
resets swissRound to 0. -/
def nextWeek (s : State) : State :=
  if s.week ≥ TOTAL_WEEKS then s
  else { s with week := s.week + 1, swissRound := 0 }

/-! ## Concrete fixtures used by witnesses and counterexamples -/

def c1TeamA : Team :=
  { name := "Aces", players := ["Ann", "Al"],
    swiss := { w := 0, l := 0, pd := 0, opps := [], playR4 := false },
    bracket := { w := 0, l := 0, pd := 0 } }

def c1TeamB : Team :=
  { name := "Bolts", players := ["Bo", "Ben"],
    swiss := { w := 0, l := 0, pd := 0, opps := [], playR4 := false },
    bracket := { w := 0, l := 0, pd := 0 } }

def c1Ctx : MatchCtx := initMatchCtx c1TeamA c1TeamB 4

def c2TeamA : Team :=
  { name := "Crabs", players := ["Cam", "Cal"],
    swiss := { w := 1, l := 0, pd := 4, opps := ["Drakes"], playR4 := false },
    bracket := { w := 0, l := 0, pd := 0 } }

def c2TeamB : Team :=
  { name := "Drakes", players := ["Dan", "Dee"],
    swiss := { w := 0, l := 1, pd := -4, opps := ["Crabs"], playR4 := false },
    bracket := { w := 0, l := 0, pd := 0 } }

/-- A season state mid-bracket: round 3 has its four placement pairs
recorded and every match of round 3 is already submitted
(pending = 0), so week finalization is about to run. -/
def c3Team (n : String) (p : String) (bw bl bpd : Int) : Team :=
  { name := n, players := [p],
    swiss := { w := 2, l := 2, pd := 0, opps := [], playR4 := false },
    bracket := { w := bw, l := bl, pd := bpd } }

def c3Player (p : String) (t : String) : Player :=
  { name := p, team := t, league := { pts := 3, w := 2, l := 1, pd := 5 } }

def c3State : State :=
  { week := 2
    teams :=
      [c3Team "A" "pa" 3 0 10, c3Team "B" "pb" 2 1 4,
       c3Team "C" "pc" 2 1 3, c3Team "D" "pd" 1 2 (-1),
       c3Team "E" "pe" 1 2 (-2), c3Team "F" "pf" 1 2 (-3),
       c3Team "G" "pg" 1 2 (-4), c3Team "H" "ph" 0 3 (-7)]
    players :=
      [c3Player "pa" "A", c3Player "pb" "B", c3Player "pc" "C",
       c3Player "pd" "D", c3Player "pe" "E", c3Player "pf" "F",
       c3Player "pg" "G", c3Player "ph" "H"]
    swissRound := 4
    pending := 0
    bracketRounds :=
      [[("A", "C"), ("B", "D"), ("E", "G"), ("F", "H")],
       [("A", "B"), ("C", "D"), ("E", "F"), ("G", "H")],
       [("A", "B"), ("C", "D"), ("E", "F"), ("G", "H")]] }

def c4Team (n : String) (w l : Int) (mark : Bool) : Team :=
  { name := n, players := [n ++ "1", n ++ "2"],
    swiss := { w := w, l := l, pd := 0, opps := [], playR4 := mark },
    bracket := { w := 0, l := 0, pd := 0 } }

/-- A state at the round-4 advance in which only two teams carry the
round-4 eligibility mark (reachable, e.g., after an admin correction of
a round-1 result between rounds 2 and 3 moves both of its teams into
the 1-1 pool, making that pool's size 6 instead of 4). -/
def c4State : State :=
  { week := 1
    teams :=
      [c4Team "P" 2 1 true, c4Team "Q" 1 2 true,
       c4Team "R" 3 0 false, c4Team "S" 0 3 false]
    players := []
    swissRound := 3
    pending := 0
    bracketRounds := [] }

/-- A state at the round-4 advance with exactly four marked teams, split
two and two between (2,1) and (1,2). -/
def c4WState : State :=
  { week := 1
    teams :=
      [c4Team "P" 2 1 true, c4Team "Q" 2 1 true,
       c4Team "R" 1 2 true, c4Team "S" 1 2 true,
       c4Team "T" 3 0 false, c4Team "U" 0 3 false]
    players := []
    swissRound := 3
    pending := 0
    bracketRounds := [] }

def c5Team (n : String) (opps : List String) : Team :=
  { name := n, players := [n ++ "1", n ++ "2"],
    swiss := { w := 1, l := 0, pd := 2, opps := opps, playR4 := false },
    bracket := { w := 0, l := 0, pd := 0 } }

/-- Pool where the greedy first choice (pairing "W" with "X") leads to a
dead end — "Y" and "Z" have already played each other — so the search
must backtrack and re-pair "W" with "Y"; the rematch-free perfect
matching [("W","Y"),("X","Z")] exists. -/
def c5Pool : List Team :=
  [c5Team "W" [], c5Team "X" [], c5Team "Y" ["Z"], c5Team "Z" ["Y"]]

def c5M : List (Team × Team) :=
  [(c5Team "W" [], c5Team "Y" ["Z"]), (c5Team "X" [], c5Team "Z" ["Y"])]

def c10Pool : List Team :=
  [c5Team "J" ["K"], c5Team "K" ["J"], c5Team "L" []]

def c9State : State :=
  { week := 1
    teams := [c4Team "P" 1 0 false, c4Team "Q" 0 1 false]
    players := []
    swissRound := 1
    pending := 1
    bracketRounds := [] }

def c8P1 : Player := { name := "ann", team := "A", league := ⟨10, 3, 1, 7⟩ }

def c8P2 : Player := { name := "bob", team := "B", league := ⟨10, 3, 1, 7⟩ }

def c8P3 : Player := { name := "cat", team := "C", league := ⟨9, 5, 0, 20⟩ }

/-- State shape for the week-finalization award theorem: eight teams
named T1..T8 with two players each, symbolic bracket records and
symbolic initial league records, and bracket round 3 holding the four
placement-tier pairs (T1,T2), (T3,T4), (T5,T6), (T7,T8). -/
def c7Team (n : String) (p1 p2 : String) (br : BracketRec) : Team :=
  { name := n, players := [p1, p2],
    swiss := { w := 2, l := 2, pd := 0, opps := [], playR4 := false },
    bracket := br }

def c7Player (p : String) (t : String) (lg : LeagueRec) : Player :=
  { name := p, team := t, league := lg }

def c7State (b1 b2 b3 b4 b5 b6 b7 b8 : BracketRec)
    (l11 l12 l21 l22 l31 l32 l41 l42 l51 l52 l61 l62 l71 l72 l81 l82 : LeagueRec) :
    State :=
  { week := 1
    teams :=
      [c7Team "T1" "p11" "p12" b1, c7Team "T2" "p21" "p22" b2,
       c7Team "T3" "p31" "p32" b3, c7Team "T4" "p41" "p42" b4,
       c7Team "T5" "p51" "p52" b5, c7Team "T6" "p61" "p62" b6,
       c7Team "T7" "p71" "p72" b7, c7Team "T8" "p81" "p82" b8]
    players :=
      [c7Player "p11" "T1" l11, c7Player "p12" "T1" l12,
       c7Player "p21" "T2" l21, c7Player "p22" "T2" l22,
       c7Player "p31" "T3" l31, c7Player "p32" "T3" l32,
       c7Player "p41" "T4" l41, c7Player "p42" "T4" l42,
       c7Player "p51" "T5" l51, c7Player "p52" "T5" l52,
       c7Player "p61" "T6" l61, c7Player "p62" "T6" l62,
       c7Player "p71" "T7" l71, c7Player "p72" "T7" l72,
       c7Player "p81" "T8" l81, c7Player "p82" "T8" l82]
    swissRound := 4
    pending := 0
    bracketRounds :=
      [[("T1", "T8"), ("T4", "T5"), ("T2", "T7"), ("T3", "T6")],
       [("T1", "T4"), ("T8", "T5"), ("T2", "T3"), ("T7", "T6")],
       [("T1", "T2"), ("T3", "T4"), ("T5", "T6"), ("T7", "T8")]] }

/-! ## Theorems -/

/-- C6: isValidScore(scoreA, scoreB) returns true if and only if both
scores are non-negative integers at most 99, max(scoreA, scoreB) ≥ 11,
and |scoreA − scoreB| ≥ 2; any input violating one of these conditions
returns false. -/
theorem isValidScore_iff (a b : Int) :
    isValidScore a b = true ↔
      (0 ≤ a ∧ 0 ≤ b ∧ a ≤ 99 ∧ b ≤ 99 ∧ 11 ≤ max a b ∧ 2 ≤ |a - b|) := by
  have habs : |a - b| = ((a - b).natAbs : Int) := Int.abs_eq_natAbs _
  unfold isValidScore
  split_ifs with h
  · simp only [Bool.or_eq_true, decide_eq_true_eq] at h
    simp only [Bool.false_eq_true, false_iff, not_and]
    intro h1 h2 h3 h4
    omega
  · simp only [Bool.or_eq_true, decide_eq_true_eq, not_or] at h
    simp only [Bool.and_eq_true, decide_eq_true_eq, ge_iff_le]
    rw [habs]
    omega

/-- C2: for any two teams and any previously recorded decisive result
(sa1, sb1) of the same match, applying applyScore with new valid scores
(sa2, sb2) and the previous result as the undo baseline produces exactly
the teams that applying only (sa2, sb2) to the initial teams would
produce — resubmission replaces the prior effect on the phase
win/loss/point-differential fields. -/
theorem applyScore_resubmission_idempotent (a b : Team)
    (sa1 sb1 sa2 sb2 : Int) (isSwiss : Bool)
    (h1 : sa1 ≠ sb1) (h2 : isValidScore sa2 sb2 = true) :
    applyScore (applyScore a b sa1 sb1 isSwiss none).1
      (applyScore a b sa1 sb1 isSwiss none).2.1 sa2 sb2 isSwiss
      (some (applyScore a b sa1 sb1 isSwiss none).2.2) =
    applyScore a b sa2 sb2 isSwiss none := by
  clear h2
  cases isSwiss <;>
    simp only [applyScore, applyScoreRec, if_true, if_false, Bool.false_eq_true,
      ite_false, ite_true] <;>
    split_ifs <;>
    simp_all [Prod.ext_iff, Team.mk.injEq, SwissRec.mk.injEq, BracketRec.mk.injEq,
      GameResult.mk.injEq] <;>
    omega

/-- Witness for C2: submitting (11,3) and then correcting to (9,11) for
the same match leaves both teams exactly as if only (9,11) had ever been
submitted. -/
theorem applyScore_resubmission_witness :
    applyScore (applyScore c2TeamA c2TeamB 11 3 true none).1
      (applyScore c2TeamA c2TeamB 11 3 true none).2.1 9 11 true
      (some (applyScore c2TeamA c2TeamB 11 3 true none).2.2) =
    applyScore c2TeamA c2TeamB 9 11 true none :=
  applyScore_resubmission_idempotent c2TeamA c2TeamB 11 3 9 11 true
    (by decide) (by decide)

/-- C9: while the pending match count is positive, nextSwissRound
refuses to advance — the state (swissRound, pending, all team records)
is returned unchanged and no matches are created. -/
theorem nextSwissRound_blocked_by_pending (s : State) (h : s.pending > 0) :
    nextSwissRound s = (s, []) := by
  unfold nextSwissRound
  rw [if_pos h]

/-- Witness for C9 at a concrete state with one pending match. -/
theorem nextSwissRound_blocked_witness :
    nextSwissRound c9State = (c9State, []) :=
  nextSwissRound_blocked_by_pending c9State (by decide)

/-- C1 (failing execution): a Swiss match whose first and only
successful submission goes through the admin-override path ends done
(score applied, pending decremented) with NO opponent entry pushed to
either team — the admin handler never records opponents, so the
exactly-once opponent recording the claim describes does not happen on
this path. -/
theorem adminOverride_first_submission_records_no_opponents :
    (runMatch true c1Ctx [MatchEvent.admin 11 5]).done = true ∧
    (runMatch true c1Ctx [MatchEvent.admin 11 5]).pending = 3 ∧
    (runMatch true c1Ctx [MatchEvent.admin 11 5]).a.swiss.opps = [] ∧
    (runMatch true c1Ctx [MatchEvent.admin 11 5]).b.swiss.opps = [] := by
  decide

/-- C4 (counterexample to the claim as stated): at a round-4 advance
where only two teams carry the eligibility mark, the marks are NOT
cleared — the clearing runs only inside the population-equals-4 branch,
so after the advance the marked teams still carry swiss.playR4. -/
theorem round4_marks_retained_on_population_mismatch :
    ¬ (∀ t ∈ (nextSwissRound c4State).1.teams, t.swiss.playR4 = false) := by
  decide

/-- C4 (amended): after the round-4 advance runs with exactly four
eligible teams, no team retains the round-4 eligibility mark; with any
other eligible population the round produces no matches but the marks
are retained. -/
theorem round4_marks_cleared_when_population_is_four (s : State)
    (hp : s.pending = 0) (hr : s.swissRound = 3) (ht : s.teams ≠ [])
    (h4 : (s.teams.filter (fun t => t.swiss.playR4)).length = 4) :
    ∀ t ∈ (nextSwissRound s).1.teams, t.swiss.playR4 = false := by
  unfold nextSwissRound
  rw [if_neg (by omega)]
  simp only [hr]
  rw [if_neg ht]
  rw [if_neg (by norm_num), if_pos (by norm_num)]
  rw [if_pos h4]
  intro t ht
  simp only [List.mem_map] at ht
  obtain ⟨u, _, rfl⟩ := ht
  by_cases hu : u.swiss.playR4 <;> simp [hu]

/-- Witness for the amended C4 at a concrete state with four marked
teams. -/
theorem round4_marks_cleared_witness :
    ((nextSwissRound c4WState).1.teams.all (fun t => !t.swiss.playR4)) = true := by
  have h := round4_marks_cleared_when_population_is_four c4WState (by decide)
    (by decide) (by decide) (by decide)
  rw [List.all_eq_true]
  intro t ht
  simpa using h t ht

/-- The sign of the league comparator characterises the specified
ranking order: comparePlayersByLeague a b is negative exactly when a
ranks strictly before b. -/
theorem comparePlayersByLeague_neg_iff (a b : Player) :
    comparePlayersByLeague a b < 0 ↔ leagueRanksBefore a b := by
  unfold comparePlayersByLeague leagueRanksBefore localeCompareInt
  split_ifs with h1 h2 h3 h4 h5
  · constructor
    · intro h
      exact Or.inl (by omega)
    · rintro (h | ⟨he, _⟩)
      · omega
      · exact absurd he h1
  · constructor
    · intro h
      exact Or.inr ⟨by omega, Or.inl (by omega)⟩
    · rintro (h | ⟨he, h | ⟨hw, _⟩⟩)
      · omega
      · omega
      · exact absurd hw h2
  · constructor
    · intro h
      exact Or.inr ⟨by omega, Or.inr ⟨by omega, Or.inl (by omega)⟩⟩
    · rintro (h | ⟨he, h | ⟨hw, h | ⟨hd, _⟩⟩⟩)
      · omega
      · omega
      · omega
      · exact absurd hd h3
  · constructor
    · intro _
      exact Or.inr ⟨by omega, Or.inr ⟨by omega, Or.inr ⟨by omega, h4⟩⟩⟩
    · intro _
      norm_num
  · constructor
    · intro h
      exact absurd h (by norm_num)
    · rintro (h | ⟨he, h | ⟨hw, h | ⟨hd, hn⟩⟩⟩)
      · omega
      · omega
      · omega
      · exact absurd hn h4
  · constructor
    · intro h
      exact absurd h (by norm_num)
    · rintro (h | ⟨he, h | ⟨hw, h | ⟨hd, hn⟩⟩⟩)
      · omega
      · omega
      · omega
      · exact absurd hn h4

/-- C8: the league comparator orders players with distinct names as a
strict total order consistent with points descending, then wins
descending, then point differential descending, then name ascending
(case-sensitive lexicographic): its negative sign coincides with that
order, any two players with distinct names compare strictly one way or
the other, never both ways, and the order is transitive. -/
theorem comparePlayersByLeague_total_order (a b c : Player)
    (hab : a.name ≠ b.name) :
    (comparePlayersByLeague a b < 0 ↔ leagueRanksBefore a b) ∧
    (comparePlayersByLeague a b < 0 ∨ comparePlayersByLeague b a < 0) ∧
    ¬(comparePlayersByLeague a b < 0 ∧ comparePlayersByLeague b a < 0) ∧
    (comparePlayersByLeague a b < 0 → comparePlayersByLeague b c < 0 →
      comparePlayersByLeague a c < 0) := by
  refine ⟨comparePlayersByLeague_neg_iff a b, ?_, ?_, ?_⟩
  · rw [comparePlayersByLeague_neg_iff, comparePlayersByLeague_neg_iff]
    unfold leagueRanksBefore
    rcases lt_trichotomy a.league.pts b.league.pts with h | h | h
    · exact Or.inr (Or.inl h)
    · rcases lt_trichotomy a.league.w b.league.w with h' | h' | h'
      · exact Or.inr (Or.inr ⟨h, Or.inl h'⟩)
      · rcases lt_trichotomy a.league.pd b.league.pd with h'' | h'' | h''
        · exact Or.inr (Or.inr ⟨h, Or.inr ⟨h', Or.inl h''⟩⟩)
        · rcases hab.lt_or_lt with hn | hn
          · exact Or.inl (Or.inr ⟨h.symm, Or.inr ⟨h'.symm, Or.inr ⟨h''.symm, hn⟩⟩⟩)
          · exact Or.inr (Or.inr ⟨h, Or.inr ⟨h', Or.inr ⟨h'', hn⟩⟩⟩)
        · exact Or.inl (Or.inr ⟨h.symm, Or.inr ⟨h'.symm, Or.inl h''⟩⟩)
      · exact Or.inl (Or.inr ⟨h.symm, Or.inl h'⟩)
    · exact Or.inl (Or.inl h)
  · rw [comparePlayersByLeague_neg_iff, comparePlayersByLeague_neg_iff]
    unfold leagueRanksBefore
    rintro ⟨hxy | ⟨he1, hxy | ⟨hw1, hxy | ⟨hd1, hn1⟩⟩⟩,
      hyx | ⟨he2, hyx | ⟨hw2, hyx | ⟨hd2, hn2⟩⟩⟩⟩ <;>
      first
        | omega
        | exact absurd hn2 (not_lt.mpr (le_of_lt hn1))
  · rw [comparePlayersByLeague_neg_iff, comparePlayersByLeague_neg_iff,
      comparePlayersByLeague_neg_iff]
    unfold leagueRanksBefore
    rintro (hxy | ⟨he1, hxy | ⟨hw1, hxy | ⟨hd1, hn1⟩⟩⟩)
      (hyz | ⟨he2, hyz | ⟨hw2, hyz | ⟨hd2, hn2⟩⟩⟩) <;>
      first
        | (left; omega)
        | (right; refine ⟨by omega, ?_⟩;
            first
              | (left; omega)
              | (right; refine ⟨by omega, ?_⟩;
                  first
                    | (left; omega)
                    | (right;
                        exact ⟨by omega, lt_trans hn1 hn2⟩)))

/-- Witness for C8 at three concrete players, two of them tied on every
numeric field. -/
theorem comparePlayersByLeague_total_order_witness :
    (comparePlayersByLeague c8P1 c8P2 < 0 ↔ leagueRanksBefore c8P1 c8P2) ∧
    (comparePlayersByLeague c8P1 c8P2 < 0 ∨ comparePlayersByLeague c8P2 c8P1 < 0) ∧
    ¬(comparePlayersByLeague c8P1 c8P2 < 0 ∧ comparePlayersByLeague c8P2 c8P1 < 0) ∧
    (comparePlayersByLeague c8P1 c8P2 < 0 → comparePlayersByLeague c8P2 c8P3 < 0 →
      comparePlayersByLeague c8P1 c8P3 < 0) :=
  comparePlayersByLeague_total_order c8P1 c8P2 c8P3 (by decide)

/-- C3 (counterexample to the claim as stated): week finalization
followed by the advance to the next week never clears bracketRounds —
at a concrete finished week the previous week's bracket pairings are
still present afterwards. -/
theorem finalizeWeek_does_not_clear_bracketRounds :
    (nextWeek (finalizeWeek c3State)).bracketRounds ≠ [] := by
  decide

/-- C3 (amended): week finalization resets every team's swiss and
bracket blocks to zero/empty, and the subsequent (user-triggered)
nextWeek increments the week counter and resets swissRound to 0 —
but bracketRounds is left as is (it is only overwritten when the next
bracket starts). -/
theorem finalize_and_advance_resets (s : State) (r3 : List (String × String))
    (h2 : s.bracketRounds.get? 2 = some r3) (h3 : r3 ≠ [])
    (hw : s.week < TOTAL_WEEKS) :
    (∀ t ∈ (nextWeek (finalizeWeek s)).teams,
        t.swiss = { w := 0, l := 0, pd := 0, opps := [], playR4 := false } ∧
        t.bracket = { w := 0, l := 0, pd := 0 }) ∧
    (nextWeek (finalizeWeek s)).week = s.week + 1 ∧
    (nextWeek (finalizeWeek s)).swissRound = 0 ∧
    (nextWeek (finalizeWeek s)).bracketRounds = s.bracketRounds := by
  simp only [finalizeWeek, h2]
  rw [if_neg h3]
  simp only [nextWeek]
  rw [if_neg (not_le.mpr hw)]
  refine ⟨?_, rfl, rfl, rfl⟩
  intro t ht
  simp only [List.mem_map] at ht
  obtain ⟨u, _, rfl⟩ := ht
  exact ⟨rfl, rfl⟩

/-- Witness for the amended C3 at the concrete finished week. -/
theorem finalize_and_advance_resets_witness :
    (∀ t ∈ (nextWeek (finalizeWeek c3State)).teams,
        t.swiss = { w := 0, l := 0, pd := 0, opps := [], playR4 := false } ∧
        t.bracket = { w := 0, l := 0, pd := 0 }) ∧
    (nextWeek (finalizeWeek c3State)).week = c3State.week + 1 ∧
    (nextWeek (finalizeWeek c3State)).swissRound = 0 ∧
    (nextWeek (finalizeWeek c3State)).bracketRounds = c3State.bracketRounds :=
  finalize_and_advance_resets c3State
    [("A", "B"), ("C", "D"), ("E", "F"), ("G", "H")]
    (by decide) (by decide) (by decide)

/-- C7: at week finalization, for each placement-tier pair at index i of
bracket round 3, every player of the pair's bracket-phase winning team
(listed before the loser here, with the win-count hypotheses selecting
it) has basePoints[i] plus the first-place bonus (when i = 0) added to
their league points and every player of the losing team has
basePoints[i] minus the loser penalty added — 15/8, 8/6, 6/4 and 4/2
under the default configuration — and each such player has the team's
bracket wins, losses and point differential added (not overwritten)
into their cumulative league record. -/
theorem finalizeWeek_awards_placement_points
    (b1 b2 b3 b4 b5 b6 b7 b8 : BracketRec)
    (l11 l12 l21 l22 l31 l32 l41 l42 l51 l52 l61 l62 l71 l72 l81 l82 : LeagueRec)
    (h1 : b1.w > b2.w) (h2 : b3.w > b4.w) (h3 : b5.w > b6.w) (h4 : b7.w > b8.w) :
    (finalizeWeek (c7State b1 b2 b3 b4 b5 b6 b7 b8
        l11 l12 l21 l22 l31 l32 l41 l42 l51 l52 l61 l62 l71 l72 l81 l82)).players =
      [c7Player "p11" "T1" ⟨l11.pts + 15, l11.w + b1.w, l11.l + b1.l, l11.pd + b1.pd⟩,
       c7Player "p12" "T1" ⟨l12.pts + 15, l12.w + b1.w, l12.l + b1.l, l12.pd + b1.pd⟩,
       c7Player "p21" "T2" ⟨l21.pts + 8, l21.w + b2.w, l21.l + b2.l, l21.pd + b2.pd⟩,
       c7Player "p22" "T2" ⟨l22.pts + 8, l22.w + b2.w, l22.l + b2.l, l22.pd + b2.pd⟩,
       c7Player "p31" "T3" ⟨l31.pts + 8, l31.w + b3.w, l31.l + b3.l, l31.pd + b3.pd⟩,
       c7Player "p32" "T3" ⟨l32.pts + 8, l32.w + b3.w, l32.l + b3.l, l32.pd + b3.pd⟩,
       c7Player "p41" "T4" ⟨l41.pts + 6, l41.w + b4.w, l41.l + b4.l, l41.pd + b4.pd⟩,
       c7Player "p42" "T4" ⟨l42.pts + 6, l42.w + b4.w, l42.l + b4.l, l42.pd + b4.pd⟩,
       c7Player "p51" "T5" ⟨l51.pts + 6, l51.w + b5.w, l51.l + b5.l, l51.pd + b5.pd⟩,
       c7Player "p52" "T5" ⟨l52.pts + 6, l52.w + b5.w, l52.l + b5.l, l52.pd + b5.pd⟩,
       c7Player "p61" "T6" ⟨l61.pts + 4, l61.w + b6.w, l61.l + b6.l, l61.pd + b6.pd⟩,
       c7Player "p62" "T6" ⟨l62.pts + 4, l62.w + b6.w, l62.l + b6.l, l62.pd + b6.pd⟩,
       c7Player "p71" "T7" ⟨l71.pts + 4, l71.w + b7.w, l71.l + b7.l, l71.pd + b7.pd⟩,
       c7Player "p72" "T7" ⟨l72.pts + 4, l72.w + b7.w, l72.l + b7.l, l72.pd + b7.pd⟩,
       c7Player "p81" "T8" ⟨l81.pts + 2, l81.w + b8.w, l81.l + b8.l, l81.pd + b8.pd⟩,
       c7Player "p82" "T8" ⟨l82.pts + 2, l82.w + b8.w, l82.l + b8.l, l82.pd + b8.pd⟩] := by
  simp [c7State, c7Team, c7Player, finalizeWeek, awardPair, awardToTeamPlayers,
    updateFirstPlayer, findTeamByName, BRACKET_BASE_POINTS, FIRST_PLACE_BONUS,
    LOSER_POINT_PENALTY, List.enum, List.enumFrom, List.getD, h1, h2, h3, h4]

/-- Witness for C7 with concrete bracket records (each pair's winner
listed first) and concrete initial league records. -/
theorem finalizeWeek_awards_witness :
    (finalizeWeek (c7State ⟨3, 0, 12⟩ ⟨2, 1, 4⟩ ⟨2, 1, 3⟩ ⟨1, 2, -1⟩
        ⟨2, 1, 2⟩ ⟨1, 2, -2⟩ ⟨1, 2, -3⟩ ⟨0, 3, -9⟩
        ⟨1, 0, 0, 0⟩ ⟨2, 0, 0, 0⟩ ⟨3, 0, 0, 0⟩ ⟨4, 0, 0, 0⟩
        ⟨5, 0, 0, 0⟩ ⟨6, 0, 0, 0⟩ ⟨7, 0, 0, 0⟩ ⟨8, 0, 0, 0⟩
        ⟨9, 0, 0, 0⟩ ⟨10, 0, 0, 0⟩ ⟨11, 0, 0, 0⟩ ⟨12, 0, 0, 0⟩
        ⟨13, 0, 0, 0⟩ ⟨14, 0, 0, 0⟩ ⟨15, 0, 0, 0⟩ ⟨16, 0, 0, 0⟩)).players =
      [c7Player "p11" "T1" ⟨1 + 15, 0 + 3, 0 + 0, 0 + 12⟩,
       c7Player "p12" "T1" ⟨2 + 15, 0 + 3, 0 + 0, 0 + 12⟩,
       c7Player "p21" "T2" ⟨3 + 8, 0 + 2, 0 + 1, 0 + 4⟩,
       c7Player "p22" "T2" ⟨4 + 8, 0 + 2, 0 + 1, 0 + 4⟩,
       c7Player "p31" "T3" ⟨5 + 8, 0 + 2, 0 + 1, 0 + 3⟩,
       c7Player "p32" "T3" ⟨6 + 8, 0 + 2, 0 + 1, 0 + 3⟩,
       c7Player "p41" "T4" ⟨7 + 6, 0 + 1, 0 + 2, 0 + -1⟩,
       c7Player "p42" "T4" ⟨8 + 6, 0 + 1, 0 + 2, 0 + -1⟩,
       c7Player "p51" "T5" ⟨9 + 6, 0 + 2, 0 + 1, 0 + 2⟩,
       c7Player "p52" "T5" ⟨10 + 6, 0 + 2, 0 + 1, 0 + 2⟩,
       c7Player "p61" "T6" ⟨11 + 4, 0 + 1, 0 + 2, 0 + -2⟩,
       c7Player "p62" "T6" ⟨12 + 4, 0 + 1, 0 + 2, 0 + -2⟩,
       c7Player "p71" "T7" ⟨13 + 4, 0 + 1, 0 + 2, 0 + -3⟩,
       c7Player "p72" "T7" ⟨14 + 4, 0 + 1, 0 + 2, 0 + -3⟩,
       c7Player "p81" "T8" ⟨15 + 2, 0 + 0, 0 + 3, 0 + -9⟩,
       c7Player "p82" "T8" ⟨16 + 2, 0 + 0, 0 + 3, 0 + -9⟩] :=
  finalizeWeek_awards_placement_points
    ⟨3, 0, 12⟩ ⟨2, 1, 4⟩ ⟨2, 1, 3⟩ ⟨1, 2, -1⟩ ⟨2, 1, 2⟩ ⟨1, 2, -2⟩ ⟨1, 2, -3⟩ ⟨0, 3, -9⟩
    ⟨1, 0, 0, 0⟩ ⟨2, 0, 0, 0⟩ ⟨3, 0, 0, 0⟩ ⟨4, 0, 0, 0⟩ ⟨5, 0, 0, 0⟩ ⟨6, 0, 0, 0⟩
    ⟨7, 0, 0, 0⟩ ⟨8, 0, 0, 0⟩ ⟨9, 0, 0, 0⟩ ⟨10, 0, 0, 0⟩ ⟨11, 0, 0, 0⟩ ⟨12, 0, 0, 0⟩
    ⟨13, 0, 0, 0⟩ ⟨14, 0, 0, 0⟩ ⟨15, 0, 0, 0⟩ ⟨16, 0, 0, 0⟩
    (by decide) (by decide) (by decide) (by decide)

/-- A failed partner loop restores `used` and `result` to their entry
values, provided the recursive call it delegates to does the same. -/
theorem tryPartners_fail (btr : List String → List (Team × Team) →
      Bool × List String × List (Team × Team))
    (hbtr : ∀ u r u' r', btr u r = (false, u', r') → u' = u ∧ r' = r)
    (a : Team) :
    ∀ bs used result u' r',
      tryPartners btr a bs used result = (false, u', r') →
      u' = used ∧ r' = result := by
  intro bs
  induction bs with
  | nil =>
    intro used result u' r' h
    simp only [tryPartners, Prod.mk.injEq, true_and] at h
    exact ⟨h.1.symm, h.2.symm⟩
  | cons b bs ih =>
    intro used result u' r' h
    simp only [tryPartners] at h
    split at h
    · exact ih used result u' r' h
    · cases hbt : btr (b.name :: used) (result ++ [(a, b)]) with
      | mk flag pr =>
        obtain ⟨u1, r1⟩ := pr
        cases flag
        · rw [hbt] at h
          obtain ⟨h1, h2⟩ := hbtr _ _ _ _ hbt
          simp only at h
          rw [h1, h2, List.erase_cons_head, List.dropLast_concat] at h
          exact ih used result u' r' h
        · rw [hbt] at h
          simp at h

/-- A failed backtrack call restores `used` and `result` to their entry
values: every push has a matching pop on the failure path. -/
theorem btrack_fail (pool : List Team) :
    ∀ fuel used result u' r',
      btrack pool fuel used result = (false, u', r') →
      u' = used ∧ r' = result := by
  intro fuel
  induction fuel with
  | zero =>
    intro used result u' r' h
    simp only [btrack, Prod.mk.injEq, true_and] at h
    exact ⟨h.1.symm, h.2.symm⟩
  | succ fuel ih =>
    intro used result u' r' h
    simp only [btrack] at h
    split at h
    · simp at h
    · split at h
      · simp only [Prod.mk.injEq, true_and] at h
        exact ⟨h.1.symm, h.2.symm⟩
      · rename_i a hfind
        cases htp : tryPartners (btrack pool fuel) a pool (a.name :: used) result with
        | mk flag pr =>
          obtain ⟨u1, r1⟩ := pr
          cases flag
          · rw [htp] at h
            obtain ⟨h1, h2⟩ := tryPartners_fail (btrack pool fuel) ih a pool
              (a.name :: used) result u1 r1 htp
            simp only [Prod.mk.injEq, true_and] at h
            refine ⟨?_, h.2.symm.trans h2⟩
            rw [← h.1, h1, List.erase_cons_head]
          · rw [htp] at h
            simp at h

/-- A successful partner loop extends `result` by pairs that are drawn
from the pool, pass the rematch guard, and whose names together with the
caller's frame account exactly for the final `used` set. -/
theorem tryPartners_succ (pool : List Team)
    (btr : List String → List (Team × Team) → Bool × List String × List (Team × Team))
    (hbF : ∀ u r u' r', btr u r = (false, u', r') → u' = u ∧ r' = r)
    (hbS : ∀ u r u' r', u.Nodup → (∀ x ∈ u, x ∈ pool.map Team.name) →
      btr u r = (true, u', r') →
      ∃ ext, r' = r ++ ext ∧ u'.Perm (pairNames ext ++ u) ∧ u'.Nodup ∧
        (∀ x ∈ u', x ∈ pool.map Team.name) ∧ u'.length = pool.length ∧
        ∀ p ∈ ext, p.1 ∈ pool ∧ p.2 ∈ pool ∧ p.2.name ∉ p.1.swiss.opps)
    (a : Team) (ha : a ∈ pool) :
    ∀ bs used result u' r', bs ⊆ pool →
      (a.name :: used).Nodup →
      (∀ x ∈ a.name :: used, x ∈ pool.map Team.name) →
      tryPartners btr a bs (a.name :: used) result = (true, u', r') →
      ∃ ext, r' = result ++ ext ∧ u'.Perm (pairNames ext ++ used) ∧ u'.Nodup ∧
        (∀ x ∈ u', x ∈ pool.map Team.name) ∧ u'.length = pool.length ∧
        ∀ p ∈ ext, p.1 ∈ pool ∧ p.2 ∈ pool ∧ p.2.name ∉ p.1.swiss.opps := by
  intro bs
  induction bs with
  | nil =>
    intro used result u' r' _ _ _ h
    simp [tryPartners] at h
  | cons b bs ih =>
    intro used result u' r' hsub hnd hmem h
    simp only [tryPartners] at h
    split at h
    · exact ih used result u' r'
        (fun x hx => hsub (List.mem_cons_of_mem b hx)) hnd hmem h
    · rename_i hguard
      push_neg at hguard
      cases hbt : btr (b.name :: a.name :: used) (result ++ [(a, b)]) with
      | mk flag pr =>
        obtain ⟨u1, r1⟩ := pr
        cases flag
        · rw [hbt] at h
          obtain ⟨h1, h2⟩ := hbF _ _ _ _ hbt
          simp only at h
          rw [h1, h2, List.erase_cons_head, List.dropLast_concat] at h
          exact ih used result u' r'
            (fun x hx => hsub (List.mem_cons_of_mem b hx)) hnd hmem h
        · rw [hbt] at h
          simp only [Prod.mk.injEq, true_and] at h
          obtain ⟨hu', hr'⟩ := h
          subst hu'
          subst hr'
          have hbpool : b ∈ pool := hsub (List.mem_cons_self b bs)
          have hnd2 : (b.name :: a.name :: used).Nodup :=
            List.nodup_cons.mpr ⟨hguard.1, hnd⟩
          have hmem2 : ∀ x ∈ b.name :: a.name :: used, x ∈ pool.map Team.name := by
            intro x hx
            rcases List.mem_cons.mp hx with hx | hx
            · exact hx ▸ List.mem_map_of_mem Team.name hbpool
            · exact hmem x hx
          obtain ⟨ext1, he1, hperm1, hnd1, hmem1, hlen1, hok1⟩ :=
            hbS _ _ _ _ hnd2 hmem2 hbt
          refine ⟨(a, b) :: ext1, ?_, ?_, hnd1, hmem1, hlen1, ?_⟩
          · rw [he1]
            simp
          · have s1 : (pairNames ext1 ++ (b.name :: a.name :: used)).Perm
                ((b.name :: a.name :: used) ++ pairNames ext1) :=
              List.perm_append_comm
            have s2 : (b.name :: a.name :: (used ++ pairNames ext1)).Perm
                (a.name :: b.name :: (used ++ pairNames ext1)) :=
              List.Perm.swap _ _ _
            have s3 : (used ++ pairNames ext1).Perm (pairNames ext1 ++ used) :=
              List.perm_append_comm
            have hb2 := s1.trans (s2.trans ((s3.cons _).cons _))
            have hfinal := hperm1.trans hb2
            simpa [pairNames, List.append_assoc] using hfinal
          · intro p hp
            rcases List.mem_cons.mp hp with hp | hp
            · exact hp ▸ ⟨ha, hbpool, hguard.2⟩
            · exact hok1 p hp

/-- A successful backtrack call pairs up exactly the pool members that
were not yet used: the final `used` is a permutation of the names of the
appended pairs together with the entry `used`, stays duplicate-free
inside the pool's names, reaches the pool's full length, and every
appended pair passes the rematch guard. -/
theorem btrack_succ (pool : List Team) :
    ∀ fuel used result u' r', used.Nodup →
      (∀ x ∈ used, x ∈ pool.map Team.name) →
      btrack pool fuel used result = (true, u', r') →
      ∃ ext, r' = result ++ ext ∧ u'.Perm (pairNames ext ++ used) ∧ u'.Nodup ∧
        (∀ x ∈ u', x ∈ pool.map Team.name) ∧ u'.length = pool.length ∧
        ∀ p ∈ ext, p.1 ∈ pool ∧ p.2 ∈ pool ∧ p.2.name ∉ p.1.swiss.opps := by
  intro fuel
  induction fuel with
  | zero =>
    intro used result u' r' _ _ h
    simp [btrack] at h
  | succ fuel ih =>
    intro used result u' r' hnd hmem h
    simp only [btrack] at h
    split at h
    · rename_i hlen
      simp only [Prod.mk.injEq, true_and] at h
      obtain ⟨hu', hr'⟩ := h
      subst hu'
      subst hr'
      exact ⟨[], by simp, by simp [pairNames], hnd, hmem, hlen, by simp⟩
    · split at h
      · simp at h
      · rename_i hlen a hfind
        have hapool : a ∈ pool := List.mem_of_find?_eq_some hfind
        have hause : a.name ∉ used := by
          have := List.find?_some hfind
          exact of_decide_eq_true this
        cases htp : tryPartners (btrack pool fuel) a pool (a.name :: used) result with
        | mk flag pr =>
          obtain ⟨u1, r1⟩ := pr
          cases flag
          · rw [htp] at h
            simp at h
          · rw [htp] at h
            simp only [Prod.mk.injEq, true_and] at h
            obtain ⟨hu', hr'⟩ := h
            subst hu'
            subst hr'
            have hnd2 : (a.name :: used).Nodup := List.nodup_cons.mpr ⟨hause, hnd⟩
            have hmem2 : ∀ x ∈ a.name :: used, x ∈ pool.map Team.name := by
              intro x hx
              rcases List.mem_cons.mp hx with hx | hx
              · exact hx ▸ List.mem_map_of_mem Team.name hapool
              · exact hmem x hx
            exact tryPartners_succ pool (btrack pool fuel) (btrack_fail pool fuel)
              (ih) a hapool pool used result u1 r1 (fun x hx => hx) hnd2 hmem2 htp

/-- If some candidate in the loop's remaining list passes the rematch
guard and makes the recursive call succeed, the partner loop succeeds:
every earlier failed candidate is rolled back before the next one is
tried. -/
theorem tryPartners_complete (btr : List String → List (Team × Team) →
      Bool × List String × List (Team × Team))
    (hbF : ∀ u r u' r', btr u r = (false, u', r') → u' = u ∧ r' = r)
    (a : Team) :
    ∀ bs used result,
      (∃ b ∈ bs, (b.name ∉ used ∧ b.name ∉ a.swiss.opps) ∧
        (btr (b.name :: used) (result ++ [(a, b)])).1 = true) →
      (tryPartners btr a bs used result).1 = true := by
  intro bs
  induction bs with
  | nil =>
    intro used result h
    obtain ⟨b, hb, _⟩ := h
    simp at hb
  | cons b bs ih =>
    intro used result h
    obtain ⟨b0, hb0mem, ⟨hb01, hb02⟩, hb0t⟩ := h
    simp only [tryPartners]
    split
    · rename_i hguard
      have hb0bs : b0 ∈ bs := by
        rcases List.mem_cons.mp hb0mem with he | hbs
        · subst he
          exact absurd hguard (by simp [hb01, hb02])
        · exact hbs
      exact ih used result ⟨b0, hb0bs, ⟨hb01, hb02⟩, hb0t⟩
    · cases hbt : btr (b.name :: used) (result ++ [(a, b)]) with
      | mk flag pr =>
        obtain ⟨u1, r1⟩ := pr
        cases flag
        · obtain ⟨h1, h2⟩ := hbF _ _ _ _ hbt
          show (tryPartners btr a bs (u1.erase b.name) r1.dropLast).1 = true
          rw [h1, h2, List.erase_cons_head, List.dropLast_concat]
          have hb0bs : b0 ∈ bs := by
            rcases List.mem_cons.mp hb0mem with he | hbs
            · subst he
              rw [hbt] at hb0t
              simp at hb0t
            · exact hbs
          exact ih used result ⟨b0, hb0bs, ⟨hb01, hb02⟩, hb0t⟩
        · rfl

theorem pairNames_mem_left {M : List (Team × Team)} {q : Team × Team}
    (hq : q ∈ M) : q.1.name ∈ pairNames M :=
  List.mem_flatMap.mpr ⟨q, hq, by simp⟩

theorem pairNames_mem_right {M : List (Team × Team)} {q : Team × Team}
    (hq : q ∈ M) : q.2.name ∈ pairNames M :=
  List.mem_flatMap.mpr ⟨q, hq, by simp⟩

theorem pairNames_pair_ne {M : List (Team × Team)} {q : Team × Team}
    (hq : q ∈ M) (hnd : (pairNames M).Nodup) : q.1.name ≠ q.2.name := by
  obtain ⟨s, t, rfl⟩ := List.append_of_mem hq
  have heq : pairNames (s ++ q :: t) =
      pairNames s ++ ([q.1.name, q.2.name] ++ pairNames t) := by
    simp [pairNames]
  rw [heq] at hnd
  have h2 := List.Nodup.of_append_right hnd
  have h3 := List.Nodup.of_append_left h2
  simpa using h3

theorem pairNames_length (M : List (Team × Team)) :
    (pairNames M).length = 2 * M.length := by
  induction M with
  | nil => simp [pairNames]
  | cons q M ih =>
    simp only [pairNames, List.flatMap_cons] at *
    simp [ih]
    omega

theorem append_cons_cons_perm (u P : List String) (x y : String) :
    (u ++ (x :: y :: P)).Perm (y :: x :: (u ++ P)) := by
  have s1 : (u ++ (x :: y :: P)).Perm ((x :: y :: P) ++ u) := List.perm_append_comm
  have s2 : (x :: y :: (P ++ u)).Perm (y :: x :: (P ++ u)) := List.Perm.swap _ _ _
  have s3 : (P ++ u).Perm (u ++ P) := List.perm_append_comm
  exact s1.trans (s2.trans ((s3.cons _).cons _))

/-- Completeness of the backtracking search: whenever the teams not yet
used can be perfectly matched without rematches (in either direction of
the opponents lists), the search succeeds.  The forced first team `a`
is matched in any such matching, and trying its matching partner —
reached after earlier candidates are rolled back — succeeds by
induction. -/
theorem btrack_complete (pool : List Team) (hnd : (pool.map Team.name).Nodup) :
    ∀ fuel M used result, M.length < fuel →
      (pool.map Team.name).Perm (used ++ pairNames M) →
      (∀ p ∈ M, p.1 ∈ pool ∧ p.2 ∈ pool ∧
        p.1.name ∉ p.2.swiss.opps ∧ p.2.name ∉ p.1.swiss.opps) →
      (btrack pool fuel used result).1 = true := by
  intro fuel
  induction fuel with
  | zero =>
    intro M used result hf _ _
    omega
  | succ fuel ih =>
    intro M used result hf hperm hvalid
    by_cases hlen : used.length = pool.length
    · simp only [btrack]
      rw [if_pos hlen]
    · have hndperm : (used ++ pairNames M).Nodup := hperm.nodup hnd
      have hndM : (pairNames M).Nodup := List.Nodup.of_append_right hndperm
      have hdisj : ∀ x ∈ pairNames M, x ∉ used := by
        intro x hx hxu
        exact (List.disjoint_of_nodup_append hndperm) hxu hx
      have hlens : pool.length = used.length + (pairNames M).length := by
        have hl := hperm.length_eq
        simpa [List.length_append] using hl
      have hMne : M ≠ [] := by
        intro hM
        subst hM
        simp [pairNames] at hlens
        exact hlen hlens.symm
      obtain ⟨q0, hq0⟩ := List.exists_mem_of_ne_nil M hMne
      have hfs : (pool.find? (fun t => decide (t.name ∉ used))).isSome := by
        rw [List.find?_isSome]
        exact ⟨q0.1, (hvalid q0 hq0).1,
          decide_eq_true (hdisj _ (pairNames_mem_left hq0))⟩
      obtain ⟨a, hfind⟩ := Option.isSome_iff_exists.mp hfs
      have hapool : a ∈ pool := List.mem_of_find?_eq_some hfind
      have hause : a.name ∉ used := by
        have hpred := List.find?_some hfind
        exact of_decide_eq_true hpred
      have haM : a.name ∈ pairNames M := by
        have hmm : a.name ∈ pool.map Team.name := List.mem_map_of_mem Team.name hapool
        rcases List.mem_append.mp (hperm.mem_iff.mp hmm) with h | h
        · exact absurd h hause
        · exact h
      obtain ⟨q, hqM, hqa⟩ : ∃ q ∈ M, a.name = q.1.name ∨ a.name = q.2.name := by
        rcases List.mem_flatMap.mp haM with ⟨q, hq, hmm⟩
        simp only [List.mem_cons, List.mem_singleton, List.not_mem_nil,
          or_false] at hmm
        exact ⟨q, hq, hmm⟩
      obtain ⟨hq1pool, hq2pool, hq12, hq21⟩ := hvalid q hqM
      have hinj := List.inj_on_of_nodup_map hnd
      have hq1q2 : q.1.name ≠ q.2.name := pairNames_pair_ne hqM hndM
      obtain ⟨s, t, hst⟩ := List.append_of_mem hqM
      have hMq : M.Perm (q :: (s ++ t)) := by
        rw [hst]
        exact List.perm_middle
      have hp2 : (pairNames M).Perm
          (q.1.name :: q.2.name :: pairNames (s ++ t)) := by
        have hh := List.Perm.flatMap_right
          (fun p : Team × Team => [p.1.name, p.2.name]) hMq
        simpa [pairNames] using hh
      have hpermQ : (pool.map Team.name).Perm
          (used ++ (q.1.name :: q.2.name :: pairNames (s ++ t))) :=
        hperm.trans (List.Perm.append_left used hp2)
      have hlenM : (s ++ t).length < fuel := by
        have hl : M.length = s.length + t.length + 1 := by
          rw [hst]
          simp
          omega
        simp only [List.length_append]
        omega
      have hvalid2 : ∀ p ∈ s ++ t, p.1 ∈ pool ∧ p.2 ∈ pool ∧
          p.1.name ∉ p.2.swiss.opps ∧ p.2.name ∉ p.1.swiss.opps := by
        intro p hp
        refine hvalid p ?_
        rw [hst]
        rcases List.mem_append.mp hp with hp | hp
        · exact List.mem_append.mpr (Or.inl hp)
        · exact List.mem_append.mpr (Or.inr (List.mem_cons_of_mem q hp))
      have key : ∀ b0 : Team, b0 ∈ pool → b0.name ∉ used → b0.name ≠ a.name →
          b0.name ∉ a.swiss.opps →
          (pool.map Team.name).Perm
            (b0.name :: a.name :: (used ++ pairNames (s ++ t))) →
          (btrack pool (fuel + 1) used result).1 = true := by
        intro b0 hb0pool hb0used hb0a hb0opp hpermNew
        have hrec : (btrack pool fuel (b0.name :: a.name :: used)
            (result ++ [(a, b0)])).1 = true := by
          refine ih (s ++ t) _ _ hlenM ?_ hvalid2
          simpa using hpermNew
        have htp : (tryPartners (btrack pool fuel) a pool
            (a.name :: used) result).1 = true := by
          refine tryPartners_complete (btrack pool fuel) (btrack_fail pool fuel)
            a pool (a.name :: used) result ⟨b0, hb0pool, ⟨?_, hb0opp⟩, hrec⟩
          simp [hb0a, hb0used]
        have hunfold : btrack pool (fuel + 1) used result =
            match tryPartners (btrack pool fuel) a pool (a.name :: used) result with
            | (true, u1, r1) => (true, u1, r1)
            | (false, u1, r1) => (false, u1.erase a.name, r1) := by
          simp only [btrack]
          rw [if_neg hlen, hfind]
        rw [hunfold]
        cases htp2 : tryPartners (btrack pool fuel) a pool
            (a.name :: used) result with
        | mk flag pr =>
          obtain ⟨u1, r1⟩ := pr
          cases flag
          · rw [htp2] at htp
            simp at htp
          · rfl
      rcases hqa with hqa | hqa
      · have hq1a : q.1 = a := hinj hq1pool hapool hqa.symm
        rw [← hqa] at hpermQ
        refine key q.2 hq2pool (hdisj _ (pairNames_mem_right hqM)) ?_ ?_ ?_
        · rw [← hq1a]
          exact hq1q2.symm
        · rw [← hq1a]
          exact hq21
        · have hb := append_cons_cons_perm used (pairNames (s ++ t))
            a.name q.2.name
          exact hpermQ.trans hb
      · have hq2a : q.2 = a := hinj hq2pool hapool hqa.symm
        rw [← hqa] at hpermQ
        refine key q.1 hq1pool (hdisj _ (pairNames_mem_left hqM)) ?_ ?_ ?_
        · rw [← hq2a]
          exact hq1q2
        · rw [← hq2a]
          exact hq12
        · have hb := append_cons_cons_perm used (pairNames (s ++ t))
            q.1.name a.name
          have hsw : (a.name :: q.1.name :: (used ++ pairNames (s ++ t))).Perm
              (q.1.name :: a.name :: (used ++ pairNames (s ++ t))) :=
            List.Perm.swap _ _ _
          exact hpermQ.trans (hb.trans hsw)

/-- C10: for every pool (with the app's unique team names), swissPair
returns either a perfect matching — its pairs' names a permutation of
the pool's names, hence disjoint pairs covering the whole pool — or the
empty list, never a non-empty partial pairing: every pairing pushed in a
failed branch is popped before the search returns.  In particular
odd-sized pools and pools of size below 2 yield the empty list. -/
theorem swissPair_perfect_or_empty (pool : List Team) :
    (swissPair pool = [] ∨
      (pairNames (swissPair pool)).Perm (pool.map Team.name)) ∧
    (pool.length % 2 = 1 → swissPair pool = []) ∧
    (pool.length < 2 → swissPair pool = []) := by
  have hmain : swissPair pool = [] ∨
      (pairNames (swissPair pool)).Perm (pool.map Team.name) := by
    unfold swissPair
    split_ifs with hl
    · exact Or.inl rfl
    · cases hbt : btrack pool (pool.length + 1) [] [] with
      | mk flag pr =>
        obtain ⟨u1, r1⟩ := pr
        cases flag
        · left
          obtain ⟨_, hr⟩ := btrack_fail pool (pool.length + 1) [] [] u1 r1 hbt
          exact hr
        · right
          obtain ⟨ext, he, hperm, hndu, hmemu, hlenu, _⟩ :=
            btrack_succ pool (pool.length + 1) [] [] u1 r1 (by simp) (by simp) hbt
          have hu1 : u1.Perm (pairNames r1) := by
            simpa [he] using hperm
          have hsp := List.Nodup.subperm hndu (fun x hx => hmemu x hx)
          have hperm2 : u1.Perm (pool.map Team.name) :=
            hsp.perm_of_length_le (by simp [hlenu])
          exact hu1.symm.trans hperm2
  refine ⟨hmain, ?_, fun hl => by unfold swissPair; rw [if_pos hl]⟩
  intro hodd
  rcases hmain with h | h
  · exact h
  · exfalso
    have hlen := h.length_eq
    rw [pairNames_length] at hlen
    simp only [List.length_map] at hlen
    omega

/-- Witness for C10 at a concrete odd pool. -/
theorem swissPair_perfect_or_empty_witness :
    (swissPair c10Pool = [] ∨
      (pairNames (swissPair c10Pool)).Perm (c10Pool.map Team.name)) ∧
    (c10Pool.length % 2 = 1 → swissPair c10Pool = []) ∧
    (c10Pool.length < 2 → swissPair c10Pool = []) :=
  swissPair_perfect_or_empty c10Pool

/-- C5: whenever some rematch-free perfect matching of the pool exists,
swissPair returns disjoint pairs covering the entire pool (their names a
permutation of the pool's names), and no returned pair consists of two
teams that appear in each other's opponents lists. -/
theorem swissPair_covers_when_matching_exists (pool : List Team)
    (hnd : (pool.map Team.name).Nodup)
    (hM : ∃ M, validMatching pool M) :
    (pairNames (swissPair pool)).Perm (pool.map Team.name) ∧
    ∀ p ∈ swissPair pool,
      ¬(p.2.name ∈ p.1.swiss.opps ∧ p.1.name ∈ p.2.swiss.opps) := by
  obtain ⟨M, hMperm, hMvalid⟩ := hM
  have hlenM := hMperm.length_eq
  rw [pairNames_length] at hlenM
  simp only [List.length_map] at hlenM
  by_cases hl : pool.length < 2
  · have h01 : pool.length = 0 ∨ pool.length = 1 := by omega
    rcases h01 with h0 | h1
    · have hpool : pool = [] := List.length_eq_zero.mp h0
      subst hpool
      constructor
      · simp [swissPair, pairNames]
      · intro p hp
        simp [swissPair] at hp
    · exfalso
      omega
  · have hflag : (btrack pool (pool.length + 1) [] []).1 = true := by
      refine btrack_complete pool hnd (pool.length + 1) M [] [] (by omega)
        (by simpa using hMperm) hMvalid
    unfold swissPair
    rw [if_neg hl]
    cases hbt : btrack pool (pool.length + 1) [] [] with
    | mk flag pr =>
      obtain ⟨u1, r1⟩ := pr
      rw [hbt] at hflag
      cases flag
      · simp at hflag
      · obtain ⟨ext, he, hperm, hndu, hmemu, hlenu, hok⟩ :=
          btrack_succ pool (pool.length + 1) [] [] u1 r1 (by simp) (by simp) hbt
        have hu1 : u1.Perm (pairNames r1) := by
          simpa [he] using hperm
        have hsp := List.Nodup.subperm hndu (fun x hx => hmemu x hx)
        have hperm2 : u1.Perm (pool.map Team.name) :=
          hsp.perm_of_length_le (by simp [hlenu])
        refine ⟨hu1.symm.trans hperm2, ?_⟩
        intro p hp hcontra
        have hpe : p ∈ ext := by
          simpa [he] using hp
        exact (hok p hpe).2.2 hcontra.1

/-- Witness for C5 at a concrete pool that forces backtracking, with an
explicit rematch-free perfect matching. -/
theorem swissPair_covers_witness :
    (pairNames (swissPair c5Pool)).Perm (c5Pool.map Team.name) ∧
    ∀ p ∈ swissPair c5Pool,
      ¬(p.2.name ∈ p.1.swiss.opps ∧ p.1.name ∈ p.2.swiss.opps) :=
  swissPair_covers_when_matching_exists c5Pool (by decide) ⟨c5M, by decide⟩
